import Mathlib

/-!
Verification of the argus-docs documentation pipeline.

The repository contains two Node scripts that form the system described by
the specification:

* `src/scripts/sync-docs.js` — the Sync Engine: copies an enumerated set of
  source files to destination paths, skipping sources whose path matches a
  blocklist of case-insensitive patterns.
* two Validator variants:
  - `src/scripts/validate-docs.js` (the "loose" variant): junk patterns
    anchored at `.md$`, required frontmatter field `title` only, frontmatter
    taken as `content.split('---')[1]`, no missing-block error;
  - `src/unnamed/part_000` (the "strict" variant): unanchored junk patterns,
    required fields `title` and `description`, frontmatter extracted with
    `^---\n([\s\S]*?)\n---` (anchored regex), a root allowlist, and a distinct
    `Missing frontmatter block` error.

The embedding below models file contents and names as Lean `String`s
(in Lean 4.14 a `String` is a structure holding a `List Char`, matching the
sequence-of-code-points view that the JavaScript string operations used by
these scripts have on the data involved).  The regular expressions appearing
in the scripts are all of a few fixed simple shapes (plain case-insensitive
substring, case-insensitive suffix, `KW.*\.md$`, `^---\n([\s\S]*?)\n---`,
and the multiline `^field:`); each shape is embedded by a dedicated
executable scanning function whose semantics on those shapes coincides with
the JavaScript regex engine's.
-/

namespace ArgusDocs

/-- Exact (case-sensitive) test that `p` is a prefix of `s`; the semantics of
the anchored part of JavaScript's `String.prototype.startsWith`. -/
def isPrefixB : List Char → List Char → Bool
  | [], _ => true
  | _ :: _, [] => false
  | a :: p, b :: s => a == b && isPrefixB p s

/-- Case-insensitive prefix test (ASCII folding, which is what the `i` flag
performs on the ASCII-only patterns appearing in the scripts). -/
def isPrefixCI : List Char → List Char → Bool
  | [], _ => true
  | _ :: _, [] => false
  | a :: p, b :: s => a.toLower == b.toLower && isPrefixCI p s

/-- Exact substring test: JavaScript `String.prototype.includes`. -/
def containsSub (p : List Char) : List Char → Bool
  | [] => isPrefixB p []
  | c :: t => isPrefixB p (c :: t) || containsSub p t

/-- Case-insensitive substring test: the JavaScript test `/KW/i.test(s)` for
a plain keyword `KW`. -/
def containsCI (p : List Char) : List Char → Bool
  | [] => isPrefixCI p []
  | c :: t => isPrefixCI p (c :: t) || containsCI p t

/-- Case-insensitive suffix test: the JavaScript test `/KW\.md$/i.test(s)`
style of pattern (a literal matched at the end of the string). -/
def endsWithCI (p s : List Char) : Bool :=
  isPrefixCI p.reverse s.reverse

/-- Exact suffix test: JavaScript `String.prototype.endsWith`. -/
def endsWithB (p s : List Char) : Bool :=
  isPrefixB p.reverse s.reverse

/-- The characters that JavaScript's `.` does not match and after which a
multiline `^` matches: LF, CR, LS, PS. -/
def isLineTerm (c : Char) : Bool :=
  c == '\n' || c == '\r' || c == '\u2028' || c == '\u2029'

/-- Helper for `mlineTest`: does `pat` occur immediately after some line
terminator of `s`? -/
def mlineTestAux (pat : List Char) : List Char → Bool
  | [] => false
  | c :: t => (isLineTerm c && isPrefixB pat t) || mlineTestAux pat t

/-- The JavaScript test `new RegExp('^' + lit, 'm').test(s)` for a literal
`lit`: the literal occurs at the start of the string or right after a line
terminator. -/
def mlineTest (pat s : List Char) : Bool :=
  isPrefixB pat s || mlineTestAux pat s

/-- Index of the leftmost occurrence of `pat` in `s` (the position at which
a JavaScript regex made of the literal `pat` would match). -/
def findSub (pat : List Char) : List Char → Option Nat
  | [] => if isPrefixB pat [] then some 0 else none
  | c :: t => if isPrefixB pat (c :: t) then some 0 else (findSub pat t).map (· + 1)

/-- The characters of `s` strictly before the leftmost occurrence of `sep`
(all of `s` if `sep` does not occur). -/
def takeUntil (sep : List Char) : List Char → List Char
  | [] => []
  | c :: t => if isPrefixB sep (c :: t) then [] else c :: takeUntil sep t

/-- Prepend a character to the first chunk of a chunk list (used to build
up JavaScript `split` results front to back). -/
def consHead (c : Char) : List (List Char) → List (List Char)
  | [] => [[c]]
  | x :: xs => (c :: x) :: xs

/-- Fuelled core of JavaScript `String.prototype.split` with a non-empty
string separator: scan left to right, cut at each (non-overlapping) leftmost
occurrence of the separator.  The fuel only bounds recursion depth; it is
always called with more fuel than the string's length. -/
def jsSplitF (sep : List Char) : Nat → List Char → List (List Char)
  | 0, s => [s]
  | fuel + 1, s =>
    if !sep.isEmpty && isPrefixB sep s then
      [] :: jsSplitF sep fuel (s.drop sep.length)
    else
      match s with
      | [] => [[]]
      | c :: t => consHead c (jsSplitF sep fuel t)

/-- JavaScript `s.split(sep)` for a non-empty string separator `sep`. -/
def jsSplit (sep s : List Char) : List (List Char) :=
  jsSplitF sep (s.length + 1) s

/-- JavaScript `filepath.split('/').pop()`: the last `/`-separated component
of a path (used by both validators to obtain the filename). -/
def basenameOf (p : String) : String :=
  String.mk ((jsSplit ['/'] p.data).getLastD [])

/-! ## Sync Engine — `src/scripts/sync-docs.js` -/

namespace SyncDocs

/-- `APPROVED_SOURCES` from `sync-docs.js`, in object-literal (insertion)
order, which is the order `Object.entries` iterates. -/
def APPROVED_SOURCES : List (String × String) :=
  [ ("/mnt/development/README.md", "guide/index.md"),
    ("/mnt/development/AI_MASTER_GUIDE.md", "guide/ai-guide.md"),
    ("/mnt/development/CODING_GUIDELINES.md", "guide/coding-guidelines.md"),
    ("/mnt/development/TYPE_SAFETY_RULES.md", "guide/type-safety.md"),
    ("/mnt/development/I18N_AND_ACCESSIBILITY_REQUIREMENTS.md", "guide/accessibility.md"),
    ("/mnt/development/DATABASE_CONNECTION_GUIDE.md", "guide/database.md"),
    ("/mnt/development/CLOUDFLARE_MANAGEMENT_GUIDE.md", "guide/deployment.md") ]

/-- `BLOCKED_PATTERNS` from `sync-docs.js`: `/SUMMARY/i`, `/COMPLETE/i`,
`/FIXES/i`, `/SESSION/i`, `/PROMPT/i`, `/STATUS/i`, `/AUDIT/i` — each a
plain case-insensitive substring pattern. -/
def BLOCKED_PATTERNS : List String :=
  ["SUMMARY", "COMPLETE", "FIXES", "SESSION", "PROMPT", "STATUS", "AUDIT"]

/-- `isJunkDoc` from `sync-docs.js`:
`BLOCKED_PATTERNS.some(pattern => pattern.test(filename))`.  Note that
`syncDocs` passes it the full source *path*. -/
def isJunkDoc (filename : String) : Bool :=
  BLOCKED_PATTERNS.any (fun p => containsCI p.data filename.data)

/-- A snapshot of the filesystem: path to contents, `none` when absent. -/
def Fs : Type := String → Option String

/-- `fs.existsSync`. -/
def existsSync (fs : Fs) (p : String) : Bool :=
  (fs p).isSome

/-- `fs.readFileSync`: raises (returns `Except.error`) on a missing file. -/
def readFileSync (fs : Fs) (p : String) : Except String String :=
  match fs p with
  | some c => Except.ok c
  | none => Except.error ("ENOENT: no such file " ++ p)

/-- `fs.writeFileSync`: create or overwrite `p` with contents `c`. -/
def fsWrite (fs : Fs) (p c : String) : Fs :=
  fun q => if q = p then some c else fs q

/-- `path.join(process.cwd(), dest)` for the well-formed relative
destinations appearing in the mapping. -/
def joinPath (cwd d : String) : String :=
  cwd ++ "/" ++ d

/-- Final state of a `syncDocs` run: resulting filesystem and the two
counters printed in the summary line. -/
structure SyncResult where
  fs : Fs
  synced : Nat
  blocked : Nat

/-- The loop body of `syncDocs` over the remaining mapping entries,
threading the filesystem and the `synced`/`blocked` counters.  For each
`(source, dest)`: if `isJunkDoc(source)` then count it blocked and continue;
otherwise if the source exists, read it and overwrite
`join(process.cwd(), dest)` with its contents and count it synced; otherwise
fall through (neither counter moves). -/
def syncGo (cwd : String) : List (String × String) → Fs → Nat → Nat →
    Except String SyncResult
  | [], fs, s, b => Except.ok ⟨fs, s, b⟩
  | (source, dest) :: rest, fs, s, b =>
    if isJunkDoc source then
      syncGo cwd rest fs s (b + 1)
    else if existsSync fs source then
      match readFileSync fs source with
      | Except.error e => Except.error e
      | Except.ok content =>
        syncGo cwd rest (fsWrite fs (joinPath cwd dest) content) (s + 1) b
    else
      syncGo cwd rest fs s b

/-- `syncDocs()` from `sync-docs.js`, over a given mapping, working
directory and filesystem snapshot. -/
def syncDocs (mapping : List (String × String)) (cwd : String) (fs : Fs) :
    Except String SyncResult :=
  syncGo cwd mapping fs 0 0

/-- The `blocked` counter of a completed run (`none` when the run raised). -/
def blockedOf (r : Except String SyncResult) : Option Nat :=
  match r with
  | Except.ok res => some res.blocked
  | Except.error _ => none

/-- The `synced` counter of a completed run (`none` when the run raised). -/
def syncedOf (r : Except String SyncResult) : Option Nat :=
  match r with
  | Except.ok res => some res.synced
  | Except.error _ => none

end SyncDocs

/-! ## Validator, loose variant — `src/scripts/validate-docs.js` -/

namespace ValidateLoose

/-- The `JUNK_PATTERNS` test of `validate-docs.js`:
`/SUMMARY\.md$/i`, `/COMPLETE\.md$/i`, `/FIXES\.md$/i`, `/SESSION.*\.md$/i`,
`/PROMPT.*\.md$/i`, `/STATUS\.md$/i`, `/_AUDIT\.md$/i`, `/VERIFICATION\.md$/i`
— suffix patterns, except the two `KW.*\.md$` ones handled by
`kwDotStarMdTest` below. -/
def dotStarTailOk (r : List Char) : Bool :=
  decide (3 ≤ r.length) && endsWithCI ".md".data r &&
    (r.take (r.length - 3)).all (fun c => !(isLineTerm c))

/-- The JavaScript test `/KW.*\.md$/i.test(s)`: `KW` occurs (case
insensitively) somewhere, followed by newline-free characters, followed by
`.md` at the very end. -/
def kwDotStarMdTest (kw : List Char) : List Char → Bool
  | [] => isPrefixCI kw [] && dotStarTailOk []
  | c :: t =>
    (isPrefixCI kw (c :: t) && dotStarTailOk ((c :: t).drop kw.length)) ||
      kwDotStarMdTest kw t

/-- `JUNK_PATTERNS.some(p => p.test(filename))` for the loose variant's
pattern list, in source order. -/
def junkTest (filename : String) : Bool :=
  endsWithCI "SUMMARY.md".data filename.data ||
  endsWithCI "COMPLETE.md".data filename.data ||
  endsWithCI "FIXES.md".data filename.data ||
  kwDotStarMdTest "SESSION".data filename.data ||
  kwDotStarMdTest "PROMPT".data filename.data ||
  endsWithCI "STATUS.md".data filename.data ||
  endsWithCI "_AUDIT.md".data filename.data ||
  endsWithCI "VERIFICATION.md".data filename.data

/-- `REQUIRED_FRONTMATTER` of `validate-docs.js`. -/
def REQUIRED_FRONTMATTER : List String := ["title"]

/-- The `'---'` delimiter used by `content.split('---')`. -/
def threeDashes : List Char := ['-', '-', '-']

/-- `content.split('---')[1]` — the text between the first and second
(non-overlapping, leftmost) occurrences of `---`.  The script only reads
this under the `content.startsWith('---')` guard, under which the split has
at least two chunks; the `getD` default is never reached there. -/
def fmText (content : String) : List Char :=
  ((jsSplit threeDashes content.data)[1]?).getD []

/-- The frontmatter-checking block of the loose `validateFile`: if the
content starts with `---`, one `Missing frontmatter: <field>` error per
required field whose `"field:"` string is not a substring
(`String.prototype.includes`) of `content.split('---')[1]`; files not
starting with `---` are not checked at all (and get no error). -/
def fmErrors (content : String) : List String :=
  if isPrefixB threeDashes content.data then
    (REQUIRED_FRONTMATTER.filter
        (fun f => !(containsSub (f ++ ":").data (fmText content)))).map
      (fun f => "Missing frontmatter: " ++ f)
  else []

/-- The junk-filename block of the loose `validateFile`. -/
def junkErrors (filename : String) : List String :=
  if junkTest filename then ["Junk doc detected: " ++ filename] else []

/-- `validateFile(filepath)` of `validate-docs.js` with the file's content
supplied by the filesystem snapshot: the junk-filename check on
`filepath.split('/').pop()` pushes first, then the frontmatter checks.
(The script's final "broken links" loop pushes no errors and is therefore
observationally absent.) -/
def validateFile (filepath content : String) : List String :=
  junkErrors (basenameOf filepath) ++ fmErrors content

end ValidateLoose

/-! ## Validator, strict variant — `src/unnamed/part_000` -/

namespace ValidateStrict

/-- `JUNK_PATTERNS` of the strict variant: `/SUMMARY/i`, `/COMPLETE/i`,
`/FIXES/i`, `/SESSION/i`, `/PROMPT/i`, `/STATUS/i`, `/AUDIT/i`,
`/VERIFICATION/i` — plain case-insensitive substrings, matched anywhere in
the filename. -/
def JUNK_PATTERNS : List String :=
  ["SUMMARY", "COMPLETE", "FIXES", "SESSION", "PROMPT", "STATUS", "AUDIT",
    "VERIFICATION"]

/-- `JUNK_PATTERNS.some(p => p.test(filename))`. -/
def junkTest (filename : String) : Bool :=
  JUNK_PATTERNS.any (fun p => containsCI p.data filename.data)

/-- `REQUIRED_FRONTMATTER` of the strict variant. -/
def REQUIRED_FRONTMATTER : List String := ["title", "description"]

/-- The opening delimiter `---\n` of the frontmatter regex. -/
def dashNl : List Char := ['-', '-', '-', '\n']

/-- The closing delimiter `\n---` of the frontmatter regex. -/
def nlDash : List Char := ['\n', '-', '-', '-']

/-- `extractFrontmatter(content)`: the regex
`^---\n([\s\S]*?)\n---` is anchored at the start of the string (no `m`
flag), and the lazy group captures up to the leftmost later `\n---`;
`null` (here `none`) when there is no match. -/
def extractFrontmatter (content : String) : Option String :=
  if isPrefixB dashNl content.data then
    match findSub nlDash (content.data.drop 4) with
    | some i => some (String.mk ((content.data.drop 4).take i))
    | none => none
  else none

/-- The junk-filename block of the strict `validateFile`. -/
def junkErrors (filename : String) : List String :=
  if junkTest filename then ["Junk doc detected: " ++ filename] else []

/-- The frontmatter block of the strict `validateFile`: a
`Missing frontmatter block` error when `extractFrontmatter` returns `null`;
otherwise one `Missing frontmatter: <field>` error per required field whose
`new RegExp('^field:', 'm')` test fails on the extracted block. -/
def fmErrors (content : String) : List String :=
  match extractFrontmatter content with
  | none => ["Missing frontmatter block"]
  | some fm =>
    (REQUIRED_FRONTMATTER.filter
        (fun f => !(mlineTest (f ++ ":").data fm.data))).map
      (fun f => "Missing frontmatter: " ++ f)

/-- `validateFile({ fullPath, relPath })` of the strict variant, with the
file's content supplied: the junk check on `relPath.split(sep).pop()`
pushes first, then the frontmatter checks. -/
def validateFile (relPath content : String) : List String :=
  junkErrors (basenameOf relPath) ++ fmErrors content

/-- `VALIDATION_ROOTS` of the strict variant. -/
def VALIDATION_ROOTS : List String := ["guide", "api", "components"]

/-- `IGNORE_DIRS` of the strict variant. -/
def IGNORE_DIRS : List String := ["node_modules", ".git", ".github", ".vscode"]

/-- `shouldValidate(filepath)`: the first `/`-separated component of the
relative path is one of the allowed roots, or the path is exactly the fixed
top-level file `index.md`. -/
def shouldValidate (filepath : String) : Bool :=
  VALIDATION_ROOTS.any
      (fun r => ((jsSplit ['/'] filepath.data).headD []) == r.data) ||
    filepath == "index.md"

/-- A directory entry, as seen by `readdirSync`/`statSync`: either a file
with a name and contents or a subdirectory with a name and its own listing
(in `readdirSync` order). -/
inductive Entry where
  | file (name content : String)
  | dir (name : String) (children : List Entry)

/-- A markdown file record as collected by `findMarkdownFiles`: the path
relative to the working directory, plus the content `readFileSync` returns
for it. -/
structure FileRec where
  rel : String
  content : String
deriving DecidableEq

/-- `path.join` of the running relative path with an entry name (relative
to the traversal start `'.'`, so the top level contributes bare names). -/
def joinRel (prefx name : String) : String :=
  if prefx = "" then name else prefx ++ "/" ++ name

/-- The dir-skipping test of `findMarkdownFiles`:
`IGNORE_DIRS.has(item) || item.startsWith('.')`. -/
def skipDir (name : String) : Bool :=
  IGNORE_DIRS.contains name || isPrefixB ['.'] name.data

/-- `findMarkdownFiles` of the strict variant over a directory listing:
depth-first in listing order; skipped directories are not descended into;
a file is collected when its name ends in `.md` and `shouldValidate` holds
of its relative path.  The `fuel` argument only bounds the recursion (the
JavaScript recursion is unbounded; any fuel larger than the tree size gives
the exact traversal); every statement proved below holds for every fuel
value, with both traversals consuming it identically. -/
def findMdF : Nat → String → List Entry → List FileRec
  | 0, _, _ => []
  | _ + 1, _, [] => []
  | fuel + 1, p, Entry.file name content :: rest =>
    (if endsWithB ".md".data name.data && shouldValidate (joinRel p name) then
        [⟨joinRel p name, content⟩]
      else []) ++ findMdF fuel p rest
  | fuel + 1, p, Entry.dir name children :: rest =>
    (if skipDir name then [] else findMdF fuel (joinRel p name) children) ++
      findMdF fuel p rest

/-- The same traversal with the `shouldValidate` filter removed: every
markdown file the traversal encounters ("discovered"), checked or not. -/
def discoverF : Nat → String → List Entry → List FileRec
  | 0, _, _ => []
  | _ + 1, _, [] => []
  | fuel + 1, p, Entry.file name content :: rest =>
    (if endsWithB ".md".data name.data then [⟨joinRel p name, content⟩]
      else []) ++ discoverF fuel p rest
  | fuel + 1, p, Entry.dir name children :: rest =>
    (if skipDir name then [] else discoverF fuel (joinRel p name) children) ++
      discoverF fuel p rest

/-- Outcome of a `validate()` run: the strings passed to `console.log`, in
order, and the process exit status. -/
structure RunResult where
  lines : List String
  exitCode : Nat
deriving DecidableEq

/-- Total error count of a file list, as accumulated by `validate()`. -/
def totalErrorsOf (files : List FileRec) : Nat :=
  (files.map (fun r => (validateFile r.rel r.content).length)).sum

/-- The loop of `validate()`: per file with a non-empty error list, log the
`\n❌ <relPath>:` header and one indented line per error and add the count;
then the summary: on any error log `\n❌ Validation failed: <n> errors` and
exit 1, otherwise log `\n✅ All docs validated` (and the process ends with
status 0). -/
def runValidate : List FileRec → List String → Nat → RunResult
  | [], lines, total =>
    if 0 < total then
      ⟨lines ++ ["\n❌ Validation failed: " ++ toString total ++ " errors"], 1⟩
    else ⟨lines ++ ["\n✅ All docs validated"], 0⟩
  | f :: rest, lines, total =>
    let errs := validateFile f.rel f.content
    if 0 < errs.length then
      runValidate rest
        (lines ++ ("\n❌ " ++ f.rel ++ ":") :: errs.map (fun e => "   " ++ e))
        (total + errs.length)
    else runValidate rest lines total

/-- `validate()` of the strict variant over a directory tree. -/
def validate (fuel : Nat) (tree : List Entry) : RunResult :=
  runValidate (findMdF fuel "" tree) [] 0

end ValidateStrict

/-- The substring of `s` strictly between the first and the second
(leftmost, non-overlapping) occurrences of `sep` anywhere in `s` — all of
the remainder when `sep` occurs only once.  This is the claim-side notion
the loose validator's `content.split('---')[1]` is compared against. -/
def betweenFirstTwo (sep s : List Char) : Option (List Char) :=
  match findSub sep s with
  | none => none
  | some i => some (takeUntil sep (s.drop (i + sep.length)))

/-! ## Generic lemmas about the scanning utilities -/

theorem isPrefixB_self_append : ∀ (p t : List Char), isPrefixB p (p ++ t) = true
  | [], _ => rfl
  | a :: p, t => by simp [isPrefixB, isPrefixB_self_append p t]

theorem length_le_of_isPrefixB :
    ∀ {p s : List Char}, isPrefixB p s = true → p.length ≤ s.length := by
  intro p
  induction p with
  | nil => intro s _; simp
  | cons a p ih =>
    intro s h
    cases s with
    | nil => simp [isPrefixB] at h
    | cons b t =>
      simp only [isPrefixB, Bool.and_eq_true] at h
      simpa using ih h.2

theorem ne_nil_of_isPrefixB {a : Char} {p s : List Char}
    (h : isPrefixB (a :: p) s = true) : s ≠ [] := by
  cases s with
  | nil => simp [isPrefixB] at h
  | cons b t => simp

theorem findSub_eq_zero_of_isPrefixB {pat s : List Char} (hs : s ≠ [])
    (h : isPrefixB pat s = true) : findSub pat s = some 0 := by
  cases s with
  | nil => exact absurd rfl hs
  | cons c t => simp [findSub, h]

theorem takeUntil_eq_self_of_findSub_none :
    ∀ {sep s : List Char}, findSub sep s = none → takeUntil sep s = s := by
  intro sep s
  induction s with
  | nil => intro _; rfl
  | cons c t ih =>
    intro h
    by_cases hp : isPrefixB sep (c :: t) = true
    · simp [findSub, hp] at h
    · simp only [findSub, hp, if_false, Bool.false_eq_true] at h ⊢
      rw [takeUntil, if_neg hp]
      cases hf : findSub sep t with
      | none => rw [ih hf]
      | some i => simp [hf] at h

theorem jsSplitF_head (a : Char) (sp : List Char) :
    ∀ (fuel : Nat) (s : List Char), s.length < fuel →
      (jsSplitF (a :: sp) fuel s).head? = some (takeUntil (a :: sp) s) := by
  intro fuel
  induction fuel with
  | zero => intro s h; omega
  | succ fuel ih =>
    intro s h
    cases s with
    | nil =>
      have : isPrefixB (a :: sp) [] = false := rfl
      rw [jsSplitF.eq_def]
      simp [this, takeUntil]
    | cons c t =>
      by_cases hp : isPrefixB (a :: sp) (c :: t) = true
      · have hunf : jsSplitF (a :: sp) (fuel + 1) (c :: t) =
            [] :: jsSplitF (a :: sp) fuel ((c :: t).drop (a :: sp).length) := by
          rw [jsSplitF.eq_def]; simp [hp]
        rw [hunf]
        simp [takeUntil, hp]
      · have hunf : jsSplitF (a :: sp) (fuel + 1) (c :: t) =
            consHead c (jsSplitF (a :: sp) fuel t) := by
          rw [jsSplitF.eq_def]; simp [hp]
        rw [hunf]
        have ht : t.length < fuel := by simp at h; omega
        have := ih t ht
        cases hq : jsSplitF (a :: sp) fuel t with
        | nil => simp [hq] at this
        | cons x xs =>
          rw [hq] at this
          simp only [List.head?] at this
          simp only [consHead, List.head?, takeUntil, hp, if_false,
            Bool.false_eq_true, Option.some.injEq] at this ⊢
          exact congrArg (c :: ·) this

theorem jsSplit_get1 {a : Char} {sp s : List Char}
    (h : isPrefixB (a :: sp) s = true) :
    (jsSplit (a :: sp) s)[1]? =
      some (takeUntil (a :: sp) (s.drop (a :: sp).length)) := by
  have hne : s ≠ [] := ne_nil_of_isPrefixB h
  have hlen : (a :: sp).length ≤ s.length := length_le_of_isPrefixB h
  have hunf : jsSplit (a :: sp) s =
      [] :: jsSplitF (a :: sp) s.length (s.drop (a :: sp).length) := by
    rw [jsSplit, jsSplitF.eq_def]
    cases s with
    | nil => exact absurd rfl hne
    | cons c t => simp [h]
  rw [hunf]
  have hd : (s.drop (a :: sp).length).length < s.length := by
    have hpos : 0 < s.length := by cases s with
      | nil => exact absurd rfl hne
      | cons c t => simp
    simp only [List.length_drop]
    simp at hlen ⊢
    omega
  have hh := jsSplitF_head a sp s.length (s.drop (a :: sp).length) hd
  rw [List.head?_eq_getElem?] at hh
  simpa using hh

/-! ## Sync Engine lemmas -/

namespace SyncDocs

theorem syncGo_ok_blocked (cwd : String) :
    ∀ (mapping : List (String × String)) (fs : Fs) (s b : Nat),
      ∃ res, syncGo cwd mapping fs s b = Except.ok res ∧
        res.blocked = b + mapping.countP (fun e => isJunkDoc e.1) := by
  intro mapping
  induction mapping with
  | nil =>
    intro fs s b
    exact ⟨⟨fs, s, b⟩, rfl, by simp [List.countP_nil]⟩
  | cons e rest ih =>
    intro fs s b
    obtain ⟨src, dest⟩ := e
    by_cases hj : isJunkDoc src = true
    · obtain ⟨res, hres, hb⟩ := ih fs s (b + 1)
      refine ⟨res, ?_, ?_⟩
      · simpa [syncGo, hj] using hres
      · rw [hb, List.countP_cons]; simp [hj]; omega
    · cases hc : fs src with
      | some c =>
        obtain ⟨res, hres, hb⟩ :=
          ih (fsWrite fs (joinPath cwd dest) c) (s + 1) b
        refine ⟨res, ?_, ?_⟩
        · simpa [syncGo, hj, existsSync, readFileSync, hc] using hres
        · rw [hb, List.countP_cons]; simp [hj]
      | none =>
        obtain ⟨res, hres, hb⟩ := ih fs s b
        refine ⟨res, ?_, ?_⟩
        · simpa [syncGo, hj, existsSync, hc] using hres
        · rw [hb, List.countP_cons]; simp [hj]

theorem syncGo_preserves (cwd : String) :
    ∀ (mapping : List (String × String)) (fs : Fs) (s b : Nat)
      (res : SyncResult), syncGo cwd mapping fs s b = Except.ok res →
      ∀ p, (∀ e ∈ mapping, joinPath cwd e.2 ≠ p) → res.fs p = fs p := by
  intro mapping
  induction mapping with
  | nil =>
    intro fs s b res hres p _
    simp only [syncGo, Except.ok.injEq] at hres
    rw [← hres]
  | cons e rest ih =>
    intro fs s b res hres p hp
    obtain ⟨src, dest⟩ := e
    have hprest : ∀ e ∈ rest, joinPath cwd e.2 ≠ p := by
      intro e he; exact hp e (List.mem_cons_of_mem _ he)
    by_cases hj : isJunkDoc src = true
    · rw [syncGo, if_pos hj] at hres
      exact ih fs s (b + 1) res hres p hprest
    · cases hc : fs src with
      | some c =>
        rw [syncGo, if_neg hj] at hres
        simp only [existsSync, readFileSync, hc, Option.isSome_some,
          if_true] at hres
        have := ih (fsWrite fs (joinPath cwd dest) c) (s + 1) b res hres p
          hprest
        rw [this, fsWrite, if_neg]
        intro hpe
        exact hp (src, dest) (List.mem_cons_self _ _) hpe.symm
      | none =>
        rw [syncGo, if_neg hj] at hres
        simp only [existsSync, hc, Option.isSome_none,
          Bool.false_eq_true, if_false] at hres
        exact ih fs s b res hres p hprest

/-- Main inductive invariant of the sync loop, under the side conditions
that no destination path coincides with any source path (so writes cannot
create or change a later loop iteration's source) and that destination
paths are pairwise distinct (so no later write clobbers an earlier one). -/
theorem syncGo_spec (cwd : String) :
    ∀ (mapping : List (String × String)) (fs : Fs) (s b : Nat),
      (∀ e ∈ mapping, ∀ e' ∈ mapping, joinPath cwd e.2 ≠ e'.1) →
      (List.Nodup (mapping.map fun e => joinPath cwd e.2)) →
      ∃ res, syncGo cwd mapping fs s b = Except.ok res ∧
        res.synced =
          s + mapping.countP (fun e => !isJunkDoc e.1 && (fs e.1).isSome) ∧
        res.blocked = b + mapping.countP (fun e => isJunkDoc e.1) ∧
        (∀ e ∈ mapping, isJunkDoc e.1 = false →
          (∀ c, fs e.1 = some c → res.fs (joinPath cwd e.2) = some c) ∧
          (fs e.1 = none →
            res.fs (joinPath cwd e.2) = fs (joinPath cwd e.2))) := by
  intro mapping
  induction mapping with
  | nil =>
    intro fs s b _ _
    exact ⟨⟨fs, s, b⟩, rfl, by simp, by simp, by simp⟩
  | cons hd rest ih =>
    intro fs s b hdis hnd
    obtain ⟨src, dest⟩ := hd
    have hdis' : ∀ e ∈ rest, ∀ e' ∈ rest, joinPath cwd e.2 ≠ e'.1 := by
      intro e he e' he'
      exact hdis e (List.mem_cons_of_mem _ he) e' (List.mem_cons_of_mem _ he')
    rw [List.map_cons] at hnd
    have hnd2 := List.nodup_cons.mp hnd
    have hnd' : List.Nodup (rest.map fun e => joinPath cwd e.2) := hnd2.2
    have hdnotin : joinPath cwd dest ∉ rest.map fun e => joinPath cwd e.2 :=
      hnd2.1
    have hrestne : ∀ e ∈ rest, joinPath cwd e.2 ≠ joinPath cwd dest := by
      intro e he hh
      exact hdnotin (by rw [← hh]; exact List.mem_map_of_mem _ he)
    by_cases hj : isJunkDoc src = true
    · obtain ⟨res, hres, hs, hb, hent⟩ := ih fs s (b + 1) hdis' hnd'
      refine ⟨res, by simpa [syncGo, hj] using hres, ?_, ?_, ?_⟩
      · rw [hs, List.countP_cons]; simp [hj]
      · rw [hb, List.countP_cons]; simp [hj]; omega
      · intro e he hej
        rcases List.mem_cons.mp he with heq | he'
        · subst heq; simp at hej; rw [hej] at hj; cases hj
        · exact hent e he' hej
    · cases hc : fs src with
      | some c =>
        have hagree : ∀ e ∈ rest,
            fsWrite fs (joinPath cwd dest) c e.1 = fs e.1 := by
          intro e he
          rw [fsWrite, if_neg]
          intro h
          exact hdis (src, dest) (List.mem_cons_self _ _) e
            (List.mem_cons_of_mem _ he) h.symm
        obtain ⟨res, hres, hs, hb, hent⟩ :=
          ih (fsWrite fs (joinPath cwd dest) c) (s + 1) b hdis' hnd'
        have hcount :
            rest.countP (fun e => !isJunkDoc e.1 &&
                (fsWrite fs (joinPath cwd dest) c e.1).isSome) =
              rest.countP (fun e => !isJunkDoc e.1 && (fs e.1).isSome) := by
          apply List.countP_congr
          intro e he
          simp [hagree e he]
        refine ⟨res, ?_, ?_, ?_, ?_⟩
        · simpa [syncGo, hj, existsSync, readFileSync, hc] using hres
        · rw [hs, hcount, List.countP_cons]; simp [hj, hc]; omega
        · rw [hb, List.countP_cons]; simp [hj]
        · intro e he hej
          rcases List.mem_cons.mp he with heq | he'
          · subst heq
            constructor
            · intro c' hc'
              rw [hc] at hc'
              injection hc' with hcc
              subst hcc
              have hpres := syncGo_preserves cwd rest
                (fsWrite fs (joinPath cwd dest) c) (s + 1) b res hres
                (joinPath cwd dest) hrestne
              rw [hpres, fsWrite, if_pos rfl]
            · intro h0
              rw [hc] at h0
              cases h0
          · constructor
            · intro c' hc'
              exact (hent e he' hej).1 c' (by rw [hagree e he']; exact hc')
            · intro h0
              have := (hent e he' hej).2 (by rw [hagree e he']; exact h0)
              rw [this, fsWrite, if_neg]
              exact hrestne e he'
      | none =>
        obtain ⟨res, hres, hs, hb, hent⟩ := ih fs s b hdis' hnd'
        refine ⟨res, by simpa [syncGo, hj, existsSync, hc] using hres,
          ?_, ?_, ?_⟩
        · rw [hs, List.countP_cons]; simp [hj, hc]
        · rw [hb, List.countP_cons]; simp [hj]
        · intro e he hej
          rcases List.mem_cons.mp he with heq | he'
          · subst heq
            constructor
            · intro c' hc'
              rw [hc] at hc'
              cases hc'
            · intro _
              exact syncGo_preserves cwd rest fs s b res hres
                (joinPath cwd dest) hrestne
          · exact hent e he' hej

end SyncDocs

/-! ## String-message helper lemmas -/

theorem data_append (s t : String) : (s ++ t).data = s.data ++ t.data :=
  String.data_append s t

theorem take_two_of_data_eq {a : String} {l : List Char}
    (h : a.data = '\n' :: '❌' :: l) (b : String) :
    (a ++ b).data.take 2 = ['\n', '❌'] := by
  rw [data_append, h]; rfl

theorem head_of_data_eq {a : String} {c : Char} {l : List Char}
    (h : a.data = c :: l) (b : String) : (a ++ b).data.head? = some c := by
  rw [data_append, h]; rfl

theorem append_left_inj {a x y : String} (h : a ++ x = a ++ y) : x = y := by
  have hd := congrArg String.data h
  rw [data_append, data_append] at hd
  exact String.ext (List.append_cancel_left hd)

/-! ## Validator lemmas -/

namespace ValidateLoose

theorem fmErrors_cases (content : String) :
    fmErrors content = [] ∨ fmErrors content = ["Missing frontmatter: title"] := by
  rw [fmErrors]
  by_cases hg : isPrefixB threeDashes content.data = true
  · rw [if_pos hg]
    rcases hb : containsSub ("title" ++ ":").data (fmText content) with _ | _
    · right; simp_all [REQUIRED_FRONTMATTER]
    · left; simp_all [REQUIRED_FRONTMATTER]
  · left; rw [if_neg hg]

end ValidateLoose

namespace ValidateStrict

theorem fmErrors_mem (content : String) :
    ∀ e ∈ fmErrors content,
      e = "Missing frontmatter block" ∨ e = "Missing frontmatter: title" ∨
        e = "Missing frontmatter: description" := by
  intro e he
  rw [fmErrors] at he
  cases hx : extractFrontmatter content with
  | none => rw [hx] at he; simp at he; simp [he]
  | some fm =>
    rw [hx] at he
    simp only [List.mem_map, List.mem_filter, REQUIRED_FRONTMATTER] at he
    obtain ⟨f, ⟨hf, _⟩, hfe⟩ := he
    subst hfe
    simp only [List.mem_cons, List.not_mem_nil, or_false] at hf
    rcases hf with hf | hf <;> subst hf <;> simp

theorem findMdF_eq_filter :
    ∀ (fuel : Nat) (p : String) (es : List Entry),
      findMdF fuel p es =
        (discoverF fuel p es).filter fun r => shouldValidate r.rel := by
  intro fuel
  induction fuel with
  | zero => intro p es; rfl
  | succ fuel ih =>
    intro p es
    cases es with
    | nil => rfl
    | cons e rest =>
      cases e with
      | file name content =>
        rw [findMdF, discoverF]
        by_cases hmd : endsWithB ".md".data name.data = true
        · by_cases hsv : shouldValidate (joinRel p name) = true <;>
            simp [hmd, hsv, List.filter_append, ih]
        · simp [hmd, List.filter_append, ih]
      | dir name children =>
        rw [findMdF, discoverF]
        by_cases hsk : skipDir name = true <;>
          simp [hsk, List.filter_append, ih]

theorem totalErrorsOf_nil : totalErrorsOf [] = 0 := rfl

theorem totalErrorsOf_cons (f : FileRec) (rest : List FileRec) :
    totalErrorsOf (f :: rest) =
      (validateFile f.rel f.content).length + totalErrorsOf rest := by
  simp [totalErrorsOf]

theorem runValidate_spec :
    ∀ (files : List FileRec) (lines : List String) (total : Nat),
      ∃ body,
        (runValidate files lines total).lines =
          lines ++ body ++
            [if total + totalErrorsOf files = 0 then "\n✅ All docs validated"
              else "\n❌ Validation failed: " ++
                toString (total + totalErrorsOf files) ++ " errors"] ∧
        (∀ l ∈ body,
          l.data.head? = some ' ' ∨ l.data.take 2 = ['\n', '❌']) ∧
        (runValidate files lines total).exitCode =
          if total + totalErrorsOf files = 0 then 0 else 1 := by
  intro files
  induction files with
  | nil =>
    intro lines total
    refine ⟨[], ?_, by simp, ?_⟩ <;>
    · rcases Nat.eq_zero_or_pos total with h | h
      · subst h; simp [runValidate, totalErrorsOf]
      · have h' : ¬(total + totalErrorsOf [] = 0) := by
          rw [totalErrorsOf_nil]; omega
        rw [totalErrorsOf_nil] at h'
        simp [runValidate, h, Nat.pos_iff_ne_zero.mp h, totalErrorsOf]
  | cons f rest ih =>
    intro lines total
    by_cases he : 0 < (validateFile f.rel f.content).length
    · obtain ⟨body, hl, hshape, hex⟩ :=
        ih (lines ++ ("\n❌ " ++ f.rel ++ ":") ::
            (validateFile f.rel f.content).map (fun e => "   " ++ e))
          (total + (validateFile f.rel f.content).length)
      have harith : total + (validateFile f.rel f.content).length +
          totalErrorsOf rest = total + totalErrorsOf (f :: rest) := by
        rw [totalErrorsOf_cons]; omega
      rw [harith] at hl hex
      refine ⟨("\n❌ " ++ f.rel ++ ":") ::
          (validateFile f.rel f.content).map (fun e => "   " ++ e) ++ body,
        ?_, ?_, ?_⟩
      · rw [runValidate]
        simp only [he, if_pos]
        rw [hl]
        simp [List.append_assoc]
      · intro l hl'
        simp only [List.mem_cons, List.mem_append] at hl'
        rcases hl' with (rfl | hl') | hl'
        · right
          rw [String.append_assoc]
          exact take_two_of_data_eq
            (show ("\n❌ " : String).data = '\n' :: '❌' :: [' '] from rfl) _
        · obtain ⟨x, _, rfl⟩ := List.mem_map.mp hl'
          left
          exact head_of_data_eq
            (show ("   " : String).data = ' ' :: [' ', ' '] from rfl) _
        · exact hshape l hl'
      · rw [runValidate]
        simp only [he, if_pos]
        exact hex
    · have hz : (validateFile f.rel f.content).length = 0 := by omega
      obtain ⟨body, hl, hshape, hex⟩ := ih lines total
      have harith : total + totalErrorsOf rest =
          total + totalErrorsOf (f :: rest) := by
        rw [totalErrorsOf_cons, hz, Nat.zero_add]
      rw [harith] at hl hex
      refine ⟨body, ?_, hshape, ?_⟩
      · rw [runValidate]; simp only [he, if_false]; exact hl
      · rw [runValidate]; simp only [he, if_false]; exact hex

end ValidateStrict

theorem junk_ne_missing (fn g : String) :
    ("Junk doc detected: " ++ fn) ≠ ("Missing frontmatter: " ++ g) := by
  intro h
  have h1 := head_of_data_eq
    (show ("Junk doc detected: " : String).data =
      'J' :: "unk doc detected: ".data from rfl) fn
  rw [h, head_of_data_eq
    (show ("Missing frontmatter: " : String).data =
      'M' :: "issing frontmatter: ".data from rfl) g] at h1
  exact absurd h1 (by decide)

/-! ## Claim theorems -/

/-- C9: In the Sync Engine the blocked test `isJunkDoc(source)` is applied
before the `existsSync` check, so the run never raises and its final
`blocked` counter equals the number of mapping entries whose source path
matches a blocked pattern — a value independent of the filesystem snapshot
`fs`, hence of whether any source exists on disk. -/
theorem sync_blocked_count_fs_independent (mapping : List (String × String))
    (cwd : String) (fs : SyncDocs.Fs) :
    ∃ res, SyncDocs.syncDocs mapping cwd fs = Except.ok res ∧
      res.blocked = mapping.countP (fun e => SyncDocs.isJunkDoc e.1) := by
  obtain ⟨res, hres, hb⟩ := SyncDocs.syncGo_ok_blocked cwd mapping fs 0 0
  exact ⟨res, hres, by simpa using hb⟩

/-- C2 counterexample: the Sync Engine's blocked test is applied to the
full source path, not the filename: the entry
`/mnt/SESSION_dir/readme.md` has a basename (`readme.md`) matching no
blocked pattern, yet because the directory component `SESSION_dir` matches
`/SESSION/i`, the engine counts the entry as blocked (and syncs nothing),
refuting the claim that such an entry is not counted as blocked. -/
theorem sync_blocked_by_directory_component_cex :
    SyncDocs.isJunkDoc (basenameOf "/mnt/SESSION_dir/readme.md") = false ∧
    SyncDocs.isJunkDoc "SESSION_dir" = true ∧
    SyncDocs.blockedOf (SyncDocs.syncDocs
        [("/mnt/SESSION_dir/readme.md", "guide/readme.md")] "/site"
        (fun p => if p = "/mnt/SESSION_dir/readme.md" then some "# contents"
          else none)) = some 1 ∧
    SyncDocs.syncedOf (SyncDocs.syncDocs
        [("/mnt/SESSION_dir/readme.md", "guide/readme.md")] "/site"
        (fun p => if p = "/mnt/SESSION_dir/readme.md" then some "# contents"
          else none)) = some 0 := by
  exact ⟨by decide, by decide, rfl, rfl⟩

/-- C2 amended: the Sync Engine's blocked-pattern test is applied to the
full source path of each mapping entry, so an entry whose basename matches
no blocked pattern is nevertheless counted as blocked — and neither read
nor written — whenever any component of its path matches one. -/
theorem sync_blocklist_tests_full_source_path (src dest cwd : String)
    (fs : SyncDocs.Fs)
    (_hbase : SyncDocs.isJunkDoc (basenameOf src) = false)
    (hpath : SyncDocs.isJunkDoc src = true) :
    ∃ res, SyncDocs.syncDocs [(src, dest)] cwd fs = Except.ok res ∧
      res.blocked = 1 ∧ res.synced = 0 ∧ res.fs = fs := by
  refine ⟨⟨fs, 0, 1⟩, ?_, rfl, rfl, rfl⟩
  simp [SyncDocs.syncDocs, SyncDocs.syncGo, hpath]

/-- C2 witness for the amended claim, at a source path with a clean
basename and a blocked directory component, with the source existing. -/
theorem sync_blocklist_tests_full_source_path_witness :
    SyncDocs.isJunkDoc (basenameOf "/mnt/SESSION_dir/readme.md") = false ∧
    SyncDocs.isJunkDoc "/mnt/SESSION_dir/readme.md" = true ∧
    ∃ res, SyncDocs.syncDocs [("/mnt/SESSION_dir/readme.md",
        "docs/readme.md")] "/work" (fun _ => some "# x") = Except.ok res ∧
      res.blocked = 1 ∧ res.synced = 0 ∧ res.fs = (fun _ => some "# x") :=
  ⟨by decide, by decide,
    sync_blocklist_tests_full_source_path _ _ _ _ (by decide) (by decide)⟩

/-- C7: for a mapping whose destination paths clash with no source path
and are pairwise distinct, the Sync Engine completes without raising even
when some sources are missing; every non-blocked existing source's
destination ends up overwritten with the source content verbatim, a
non-blocked missing source leaves its destination untouched, and the final
synced count equals the number of existing, non-blocked sources. -/
theorem sync_missing_sources_skipped (mapping : List (String × String))
    (cwd : String) (fs : SyncDocs.Fs)
    (hdis : ∀ e ∈ mapping, ∀ e' ∈ mapping,
      SyncDocs.joinPath cwd e.2 ≠ e'.1)
    (hnd : List.Nodup (mapping.map fun e => SyncDocs.joinPath cwd e.2)) :
    ∃ res, SyncDocs.syncDocs mapping cwd fs = Except.ok res ∧
      res.synced =
        mapping.countP (fun e => !SyncDocs.isJunkDoc e.1 && (fs e.1).isSome) ∧
      (∀ e ∈ mapping, SyncDocs.isJunkDoc e.1 = false →
        (∀ c, fs e.1 = some c →
          res.fs (SyncDocs.joinPath cwd e.2) = some c) ∧
        (fs e.1 = none →
          res.fs (SyncDocs.joinPath cwd e.2) =
            fs (SyncDocs.joinPath cwd e.2))) := by
  obtain ⟨res, hres, hs, _, hent⟩ :=
    SyncDocs.syncGo_spec cwd mapping fs 0 0 hdis hnd
  exact ⟨res, hres, by simpa using hs, hent⟩

/-- C7 witness: the shipped `APPROVED_SOURCES` mapping against a
filesystem where only the first two sources exist; the run completes and
counts exactly the existing, non-blocked sources. -/
theorem sync_missing_sources_skipped_witness :
    (∀ e ∈ SyncDocs.APPROVED_SOURCES, ∀ e' ∈ SyncDocs.APPROVED_SOURCES,
      SyncDocs.joinPath "/site" e.2 ≠ e'.1) ∧
    List.Nodup (SyncDocs.APPROVED_SOURCES.map
      fun e => SyncDocs.joinPath "/site" e.2) ∧
    ∃ res, SyncDocs.syncDocs SyncDocs.APPROVED_SOURCES "/site"
        (fun p => if p = "/mnt/development/README.md" then some "# Read me"
          else if p = "/mnt/development/AI_MASTER_GUIDE.md" then
            some "# AI guide" else none) = Except.ok res ∧
      res.synced = SyncDocs.APPROVED_SOURCES.countP
        (fun e => !SyncDocs.isJunkDoc e.1 &&
          ((fun p => if p = "/mnt/development/README.md" then some "# Read me"
            else if p = "/mnt/development/AI_MASTER_GUIDE.md" then
              some "# AI guide" else none) e.1).isSome) ∧
      (∀ e ∈ SyncDocs.APPROVED_SOURCES, SyncDocs.isJunkDoc e.1 = false →
        (∀ c, (fun p => if p = "/mnt/development/README.md" then
            some "# Read me"
          else if p = "/mnt/development/AI_MASTER_GUIDE.md" then
            some "# AI guide" else none) e.1 = some c →
          res.fs (SyncDocs.joinPath "/site" e.2) = some c) ∧
        ((fun p => if p = "/mnt/development/README.md" then some "# Read me"
          else if p = "/mnt/development/AI_MASTER_GUIDE.md" then
            some "# AI guide" else none) e.1 = none →
          res.fs (SyncDocs.joinPath "/site" e.2) =
            (fun p => if p = "/mnt/development/README.md" then
              some "# Read me"
            else if p = "/mnt/development/AI_MASTER_GUIDE.md" then
              some "# AI guide" else none)
              (SyncDocs.joinPath "/site" e.2))) :=
  ⟨by decide, by decide,
    sync_missing_sources_skipped _ _ _ (by decide) (by decide)⟩

/-- C1: when a file's content has no leading `---`-delimited frontmatter
block (the strict Validator's `extractFrontmatter` returns `null`), the
strict Validator reports the `Missing frontmatter block` error for the
file — its error list is exactly the junk-filename errors followed by that
error — and performs no required-field presence check: no
`Missing frontmatter: <field>` error appears for any required field. -/
theorem strict_missing_block_skips_field_checks (relPath content : String)
    (h : ValidateStrict.extractFrontmatter content = none) :
    ValidateStrict.validateFile relPath content =
      ValidateStrict.junkErrors (basenameOf relPath) ++
        ["Missing frontmatter block"] ∧
    ∀ f ∈ ValidateStrict.REQUIRED_FRONTMATTER,
      ("Missing frontmatter: " ++ f) ∉
        ValidateStrict.validateFile relPath content := by
  have hfm : ValidateStrict.fmErrors content =
      ["Missing frontmatter block"] := by
    rw [ValidateStrict.fmErrors, h]
  refine ⟨by rw [ValidateStrict.validateFile, hfm], ?_⟩
  intro f hf hmem
  rw [ValidateStrict.validateFile, hfm, List.mem_append] at hmem
  simp only [ValidateStrict.REQUIRED_FRONTMATTER, List.mem_cons,
    List.not_mem_nil, or_false] at hf
  rcases hmem with hmem | hmem
  · rw [ValidateStrict.junkErrors] at hmem
    by_cases hj : ValidateStrict.junkTest (basenameOf relPath) = true
    · rw [if_pos hj] at hmem
      simp only [List.mem_cons, List.not_mem_nil, or_false] at hmem
      exact junk_ne_missing _ _ hmem.symm
    · rw [if_neg hj] at hmem
      exact List.not_mem_nil _ hmem
  · simp only [List.mem_cons, List.not_mem_nil, or_false] at hmem
    rcases hf with hf | hf <;> subst hf <;> exact absurd hmem (by decide)

/-- C1 witness: a clean-named file whose content is a bare heading. -/
theorem strict_missing_block_skips_field_checks_witness :
    ValidateStrict.extractFrontmatter "# just a heading" = none ∧
    (ValidateStrict.validateFile "guide/index.md" "# just a heading" =
      ValidateStrict.junkErrors (basenameOf "guide/index.md") ++
        ["Missing frontmatter block"] ∧
    ∀ f ∈ ValidateStrict.REQUIRED_FRONTMATTER,
      ("Missing frontmatter: " ++ f) ∉
        ValidateStrict.validateFile "guide/index.md" "# just a heading") :=
  ⟨by decide, strict_missing_block_skips_field_checks _ _ (by decide)⟩

/-- C3: a checked file whose filename matches one of the strict
Validator's blocked patterns (case-insensitively, anywhere in the name)
yields exactly one junk-filename error — one error carrying the
`Junk doc detected: ` prefix — whatever the file's content is. -/
theorem strict_junk_filename_exactly_one_error (relPath content : String)
    (h : ValidateStrict.junkTest (basenameOf relPath) = true) :
    (ValidateStrict.validateFile relPath content).countP
      (fun e => isPrefixB "Junk doc detected: ".data e.data) = 1 := by
  rw [ValidateStrict.validateFile, List.countP_append]
  have hj : ValidateStrict.junkErrors (basenameOf relPath) =
      ["Junk doc detected: " ++ basenameOf relPath] := by
    rw [ValidateStrict.junkErrors, if_pos h]
  have h1 : (ValidateStrict.junkErrors (basenameOf relPath)).countP
      (fun e => isPrefixB "Junk doc detected: ".data e.data) = 1 := by
    rw [hj, List.countP_cons, List.countP_nil]
    have hpre : isPrefixB "Junk doc detected: ".data
        ("Junk doc detected: " ++ basenameOf relPath).data = true := by
      rw [data_append]
      exact isPrefixB_self_append _ _
    simp only [hpre]
    simp
  have h2 : (ValidateStrict.fmErrors content).countP
      (fun e => isPrefixB "Junk doc detected: ".data e.data) = 0 := by
    rw [List.countP_eq_zero]
    intro a ha
    rcases ValidateStrict.fmErrors_mem content a ha with h' | h' | h' <;>
      subst h' <;> decide
  omega

/-- C3 witness: the spec's own example filename `SESSION_NOTES.md`. -/
theorem strict_junk_filename_exactly_one_error_witness :
    ValidateStrict.junkTest (basenameOf "guide/SESSION_NOTES.md") = true ∧
    (ValidateStrict.validateFile "guide/SESSION_NOTES.md" "x").countP
      (fun e => isPrefixB "Junk doc detected: ".data e.data) = 1 :=
  ⟨by decide, strict_junk_filename_exactly_one_error _ _ (by decide)⟩

/-- C4: with a frontmatter block present, the strict Validator's
frontmatter errors are exactly one `Missing frontmatter: <field>` error
per required field whose `field:` does not occur at the start of a line of
the block, and a required field's error is absent from the file's error
list exactly when `field:` does occur at a line start — so an occurrence
of the field name merely inside another key (a substring occurrence that
is not a line prefix) does not count as present. -/
theorem strict_required_field_line_prefix (relPath content fm : String)
    (h : ValidateStrict.extractFrontmatter content = some fm) :
    ValidateStrict.fmErrors content =
      (ValidateStrict.REQUIRED_FRONTMATTER.filter
          (fun f => !(mlineTest (f ++ ":").data fm.data))).map
        (fun f => "Missing frontmatter: " ++ f) ∧
    ∀ f ∈ ValidateStrict.REQUIRED_FRONTMATTER,
      (("Missing frontmatter: " ++ f) ∈
          ValidateStrict.validateFile relPath content ↔
        mlineTest (f ++ ":").data fm.data = false) := by
  have hfm : ValidateStrict.fmErrors content =
      (ValidateStrict.REQUIRED_FRONTMATTER.filter
          (fun f => !(mlineTest (f ++ ":").data fm.data))).map
        (fun f => "Missing frontmatter: " ++ f) := by
    rw [ValidateStrict.fmErrors, h]
  refine ⟨hfm, ?_⟩
  intro f hf
  constructor
  · intro hmem
    rw [ValidateStrict.validateFile, List.mem_append] at hmem
    rcases hmem with hmem | hmem
    · exfalso
      rw [ValidateStrict.junkErrors] at hmem
      by_cases hjk : ValidateStrict.junkTest (basenameOf relPath) = true
      · rw [if_pos hjk] at hmem
        simp only [List.mem_cons, List.not_mem_nil, or_false] at hmem
        exact junk_ne_missing _ _ hmem.symm
      · rw [if_neg hjk] at hmem
        exact List.not_mem_nil _ hmem
    · rw [hfm] at hmem
      obtain ⟨g, hgf, hge⟩ := List.mem_map.mp hmem
      have hgf' := (List.mem_filter.mp hgf).2
      rw [append_left_inj hge] at hgf'
      simpa using hgf'
  · intro hfalse
    rw [ValidateStrict.validateFile, List.mem_append]
    right
    rw [hfm]
    refine List.mem_map.mpr ⟨f, List.mem_filter.mpr ⟨hf, ?_⟩, rfl⟩
    rw [hfalse]
    rfl

/-- C4 witness: a block whose only key is `subtitle:`, in which `title:`
occurs as a substring but not as a line prefix, so `title` is reported
missing (and so is `description`). -/
theorem strict_required_field_line_prefix_witness :
    ValidateStrict.extractFrontmatter "---\nsubtitle: x\n---\nbody" =
      some "subtitle: x" ∧
    containsSub "title:".data ("subtitle: x" : String).data = true ∧
    (ValidateStrict.fmErrors "---\nsubtitle: x\n---\nbody" =
      (ValidateStrict.REQUIRED_FRONTMATTER.filter
          (fun f => !(mlineTest (f ++ ":").data
            ("subtitle: x" : String).data))).map
        (fun f => "Missing frontmatter: " ++ f) ∧
    ∀ f ∈ ValidateStrict.REQUIRED_FRONTMATTER,
      (("Missing frontmatter: " ++ f) ∈
          ValidateStrict.validateFile "guide/a.md"
            "---\nsubtitle: x\n---\nbody" ↔
        mlineTest (f ++ ":").data ("subtitle: x" : String).data = false)) :=
  ⟨by decide, by decide,
    strict_required_field_line_prefix _ _ _ (by decide)⟩

/-- C5: on a clean-named input file whose content is exactly
`---\n---\ncontent` — an empty frontmatter block — the loose Validator
(the variant whose only required field is `title`, matching the spec
example) reports exactly the error `Missing frontmatter: title`. -/
theorem loose_empty_block_missing_title :
    ValidateLoose.validateFile "index.md" "---\n---\ncontent" =
      ["Missing frontmatter: title"] := by decide

/-- C6: the strict Validator's traversal checks exactly the discovered
markdown files whose relative path passes the `shouldValidate`
root-allowlist (a path under `guide`, `api` or `components`, or the fixed
top-level `index.md`): the collected list is the `shouldValidate`-filter of
everything the traversal discovers, and the whole run operates on that
filtered list only, so a discovered-but-unchecked file contributes no
reported error. -/
theorem strict_traversal_root_allowlist (fuel : Nat)
    (tree : List ValidateStrict.Entry) :
    ValidateStrict.findMdF fuel "" tree =
      (ValidateStrict.discoverF fuel "" tree).filter
        (fun r => ValidateStrict.shouldValidate r.rel) ∧
    ValidateStrict.validate fuel tree =
      ValidateStrict.runValidate
        ((ValidateStrict.discoverF fuel "" tree).filter
          (fun r => ValidateStrict.shouldValidate r.rel)) [] 0 := by
  refine ⟨ValidateStrict.findMdF_eq_filter fuel "" tree, ?_⟩
  rw [ValidateStrict.validate, ValidateStrict.findMdF_eq_filter]

/-- C8: a strict Validator run accumulates the error counts of all checked
files in one pass; it exits 0 exactly when the total is zero, printing
`\n✅ All docs validated` as its last line in that case and only then, and
otherwise exits 1 with last line
`\n❌ Validation failed: <n> errors` where `n` is the total number of
collected errors. -/
theorem validate_single_pass_exit_codes (fuel : Nat)
    (tree : List ValidateStrict.Entry) :
    (ValidateStrict.validate fuel tree).exitCode =
      (if ValidateStrict.totalErrorsOf
          (ValidateStrict.findMdF fuel "" tree) = 0 then 0 else 1) ∧
    (ValidateStrict.validate fuel tree).lines.getLastD "" =
      (if ValidateStrict.totalErrorsOf
          (ValidateStrict.findMdF fuel "" tree) = 0
        then "\n✅ All docs validated"
        else "\n❌ Validation failed: " ++
          toString (ValidateStrict.totalErrorsOf
            (ValidateStrict.findMdF fuel "" tree)) ++ " errors") ∧
    ("\n✅ All docs validated" ∈ (ValidateStrict.validate fuel tree).lines ↔
      ValidateStrict.totalErrorsOf
        (ValidateStrict.findMdF fuel "" tree) = 0) := by
  obtain ⟨body, hl, hshape, hex⟩ :=
    ValidateStrict.runValidate_spec (ValidateStrict.findMdF fuel "" tree) [] 0
  rw [Nat.zero_add] at hl hex
  rw [List.nil_append] at hl
  refine ⟨?_, ?_, ?_⟩
  · rw [ValidateStrict.validate]
    exact hex
  · rw [ValidateStrict.validate, hl]
    exact List.getLastD_concat _ _ _
  · rw [ValidateStrict.validate, hl]
    constructor
    · intro hm
      rw [List.mem_append] at hm
      rcases hm with hm | hm
      · exfalso
        rcases hshape _ hm with hs | hs
        · rw [show ("\n✅ All docs validated" : String).data.head? =
              some '\n' from rfl] at hs
          exact absurd hs (by decide)
        · rw [show ("\n✅ All docs validated" : String).data.take 2 =
              ['\n', '✅'] from rfl] at hs
          exact absurd hs (by decide)
      · simp only [List.mem_cons, List.not_mem_nil, or_false] at hm
        by_cases h0 : ValidateStrict.totalErrorsOf
            (ValidateStrict.findMdF fuel "" tree) = 0
        · exact h0
        · exfalso
          rw [if_neg h0] at hm
          have h2 := take_two_of_data_eq
            (show ("\n❌ Validation failed: " : String).data =
              '\n' :: '❌' :: " Validation failed: ".data from rfl)
            (toString (ValidateStrict.totalErrorsOf
              (ValidateStrict.findMdF fuel "" tree)) ++ " errors")
          rw [← String.append_assoc, ← hm] at h2
          rw [show ("\n✅ All docs validated" : String).data.take 2 =
            ['\n', '✅'] from rfl] at h2
          exact absurd h2 (by decide)
    · intro h0
      rw [List.mem_append, if_pos h0]
      right
      exact List.mem_cons_self _ _

/-- C10: when a file's content starts with `---`, the text the loose
Validator checks for required fields — `content.split('---')[1]` — is
exactly the substring between the first and second occurrences of `---`
anywhere in the content; when there is no second occurrence the whole
remainder after the opening `---` is treated as the block with no
unterminated-block error (the loose variant's only possible frontmatter
error is the missing-`title` one), so a `title:` occurring anywhere in
that remainder satisfies the check and the file's errors reduce to its
junk-filename errors. -/
theorem loose_frontmatter_between_first_two (filepath content : String)
    (h : isPrefixB ValidateLoose.threeDashes content.data = true) :
    betweenFirstTwo ValidateLoose.threeDashes content.data =
      some (ValidateLoose.fmText content) ∧
    (findSub ValidateLoose.threeDashes (content.data.drop 3) = none →
      ValidateLoose.fmText content = content.data.drop 3 ∧
      (containsSub "title:".data (content.data.drop 3) = true →
        ValidateLoose.validateFile filepath content =
          ValidateLoose.junkErrors (basenameOf filepath))) ∧
    (ValidateLoose.fmErrors content = [] ∨
      ValidateLoose.fmErrors content = ["Missing frontmatter: title"]) := by
  have hTD : ValidateLoose.threeDashes = '-' :: ['-', '-'] := rfl
  have h' : isPrefixB ('-' :: ['-', '-']) content.data = true := hTD ▸ h
  have hft : ValidateLoose.fmText content =
      takeUntil ('-' :: ['-', '-'])
        (content.data.drop ('-' :: ['-', '-']).length) := by
    rw [ValidateLoose.fmText, hTD, jsSplit_get1 h']
    rfl
  have hft3 : ValidateLoose.fmText content =
      takeUntil ValidateLoose.threeDashes (content.data.drop 3) :=
    hft.trans (by rfl)
  have h0 : findSub ValidateLoose.threeDashes content.data = some 0 :=
    findSub_eq_zero_of_isPrefixB (ne_nil_of_isPrefixB h') h
  refine ⟨?_, ?_, ValidateLoose.fmErrors_cases content⟩
  · rw [betweenFirstTwo.eq_def, h0, hft3]
    rfl
  · intro hnone
    have heq : ValidateLoose.fmText content = content.data.drop 3 := by
      rw [hft3, takeUntil_eq_self_of_findSub_none hnone]
    refine ⟨heq, ?_⟩
    intro htitle
    have hnil : ValidateLoose.fmErrors content = [] := by
      rw [ValidateLoose.fmErrors, if_pos h, ValidateLoose.REQUIRED_FRONTMATTER]
      have hcond : containsSub ("title" ++ ":").data
          (ValidateLoose.fmText content) = true := by
        rw [heq]
        exact htitle
      rw [List.filter_cons]
      simp only [hcond]
      rfl
    rw [ValidateLoose.validateFile, hnil, List.append_nil]

/-- C10 witness: a file whose content opens with `---` but has no second
`---`; the `title:` key sits in what would ordinarily be the body, yet the
check passes. -/
theorem loose_frontmatter_between_first_two_witness :
    isPrefixB ValidateLoose.threeDashes
      ("---\ntitle: only in body" : String).data = true ∧
    (betweenFirstTwo ValidateLoose.threeDashes
        ("---\ntitle: only in body" : String).data =
      some (ValidateLoose.fmText "---\ntitle: only in body") ∧
    (findSub ValidateLoose.threeDashes
        (("---\ntitle: only in body" : String).data.drop 3) = none →
      ValidateLoose.fmText "---\ntitle: only in body" =
        ("---\ntitle: only in body" : String).data.drop 3 ∧
      (containsSub "title:".data
          (("---\ntitle: only in body" : String).data.drop 3) = true →
        ValidateLoose.validateFile "a.md" "---\ntitle: only in body" =
          ValidateLoose.junkErrors (basenameOf "a.md"))) ∧
    (ValidateLoose.fmErrors "---\ntitle: only in body" = [] ∨
      ValidateLoose.fmErrors "---\ntitle: only in body" =
        ["Missing frontmatter: title"])) :=
  ⟨by decide, loose_frontmatter_between_first_two _ _ (by decide)⟩

end ArgusDocs
